import Mathlib

/-!
Verification of the Ising Monte-Carlo simulation engine (`ising.js`).

The development shallowly embeds the simulation code: the spin grid and the
exchange-field cache become integer-valued functions on `Nat × Nat` indices,
the Metropolis trial becomes an explicit state-transition function, the
observable computation and block averaging become rational-valued functions,
and the parameter scheduler (`increment` / `exitCondition` / `iterate`)
becomes a step function on a scheduler-state record.  JavaScript numbers are
modelled by exact rationals (scheduler, observables) and by real numbers
where `Math.exp` is involved (Metropolis acceptance).
-/

namespace Ising

/-! ## Lattice state and periodic neighbor topology

`ising.js` addresses the four neighbors of cell `(i, j)` as
`(i+1)%width`, `(i-1+width)%width`, `(j+1)%height`, `(j-1+height)%height`.
For `0 ≤ i` the JavaScript expression `(i - 1 + w) % w` equals the natural
number `(i + w - 1) % w`. -/

/-- Index of the right neighbor column (or row below): `(i + 1) % w`. -/
def rightN (w i : Nat) : Nat := (i + 1) % w

/-- Index of the left neighbor column (or row above): `(i - 1 + w) % w` in the
source; written `(i + w - 1) % w` over `Nat`. -/
def leftN (w i : Nat) : Nat := (i + w - 1) % w

/-- Sum of the four periodic-boundary neighbor spins of cell `(i, j)`,
as computed by the initialization loop of `ising.js` (lines 836-844). -/
def neighborSum (w h : Nat) (spin : Nat → Nat → Int) (i j : Nat) : Int :=
  spin (rightN w i) j + spin (leftN w i) j + spin i (rightN h j) + spin i (leftN h j)

/-- The mutable simulation grids: `this.spin` and `this.exchangeField`,
modelled as total functions on indices (the code only ever reads and writes
indices reduced mod `width` / `height`). -/
structure IsingState where
  spin : Nat → Nat → Int
  exchangeField : Nat → Nat → Int

/-- The exchange-field cache invariant: every in-range cell of
`exchangeField` holds the exact periodic neighbor sum of `spin`. -/
def invariant (w h : Nat) (s : IsingState) : Prop :=
  ∀ i ∈ Finset.range w, ∀ j ∈ Finset.range h,
    s.exchangeField i j = neighborSum w h s.spin i j

instance (w h : Nat) (s : IsingState) : Decidable (invariant w h s) := by
  unfold invariant; infer_instance

/-- Initial value of one spin cell (line 826):
`randomizeLattice ? 2*Math.floor(2*Math.random()) - 1 : 1`, with the random
draw for cell `(i, j)` supplied by `rand i j`. -/
def initSpin (randomize : Bool) (rand : Nat → Nat → ℚ) (i j : Nat) : Int :=
  if randomize then 2 * ⌊2 * rand i j⌋ - 1 else 1

/-- The `initialize` method (lines 815-848): build the spin grid, then fill
`exchangeField` with the four-neighbor sums. -/
def initState (w h : Nat) (randomize : Bool) (rand : Nat → Nat → ℚ) : IsingState where
  spin := initSpin randomize rand
  exchangeField := fun i j => neighborSum w h (initSpin randomize rand) i j

/-! ## Metropolis spin-flip, both source variants

Variant 3 (lines 873-888) flips the spin first and then executes
`exchangeField[neighbor] += 2*this.spin[i][j]` with the *new* spin value.
Variant 2 (lines 483-489) executes
`exchangeField[neighbor] -= 2*this.spin[i][j]` with the *old* spin value
and flips afterwards. -/

/-- Pointwise write `f[a][b] = v`. -/
def updSpin (f : Nat → Nat → Int) (a b : Nat) (v : Int) : Nat → Nat → Int :=
  fun p q => if p = a ∧ q = b then v else f p q

/-- Pointwise in-place addition `f[a][b] += d`. -/
def addAt (f : Nat → Nat → Int) (a b : Nat) (d : Int) : Nat → Nat → Int :=
  fun p q => if p = a ∧ q = b then f p q + d else f p q

/-- Accepted spin flip of variant 3 (lines 873-888): `spin[i][j] = -spin[i][j]`,
then add `2 * newSpin` (inlined as `2 * -(spin i j)`) to the four neighbors'
exchange-field entries. -/
def flipSpinV3 (w h : Nat) (s : IsingState) (i j : Nat) : IsingState where
  spin := updSpin s.spin i j (-(s.spin i j))
  exchangeField :=
    addAt (addAt (addAt (addAt s.exchangeField
      (rightN w i) j (2 * -(s.spin i j)))
      (leftN w i) j (2 * -(s.spin i j)))
      i (rightN h j) (2 * -(s.spin i j)))
      i (leftN h j) (2 * -(s.spin i j))

/-- Accepted spin flip of variant 2 (lines 483-489): subtract
`2 * spin[i][j]` (the old value) from the four neighbors' exchange-field
entries, then flip the spin. -/
def flipSpinV2 (w h : Nat) (s : IsingState) (i j : Nat) : IsingState where
  spin := updSpin s.spin i j (-(s.spin i j))
  exchangeField :=
    addAt (addAt (addAt (addAt s.exchangeField
      (rightN w i) j (-(2 * s.spin i j)))
      (leftN w i) j (-(2 * s.spin i j)))
      i (rightN h j) (-(2 * s.spin i j)))
      i (leftN h j) (-(2 * s.spin i j))

/-- One Metropolis trial of variant 3 at chosen cell `(i, j)`: mutate the
state exactly when the acceptance test succeeded, else leave it unchanged. -/
def trialV3 (w h : Nat) (s : IsingState) (i j : Nat) (accepted : Bool) : IsingState :=
  if accepted then flipSpinV3 w h s i j else s

/-- One Metropolis trial of variant 2. -/
def trialV2 (w h : Nat) (s : IsingState) (i j : Nat) (accepted : Bool) : IsingState :=
  if accepted then flipSpinV2 w h s i j else s

/-- The `metropolis` batch loop of variant 3 (lines 861-890), driven by a
list of (cell, acceptance decision) draws. -/
def runTrialsV3 (w h : Nat) (s : IsingState) (ts : List (Nat × Nat × Bool)) : IsingState :=
  ts.foldl (fun st t => trialV3 w h st t.1 t.2.1 t.2.2) s

/-- The `metropolis` batch loop of variant 2 (lines 475-491). -/
def runTrialsV2 (w h : Nat) (s : IsingState) (ts : List (Nat × Nat × Bool)) : IsingState :=
  ts.foldl (fun st t => trialV2 w h st t.1 t.2.1 t.2.2) s

/-! ## The neighbor relation is symmetric modulo `w` -/

/-- On in-range indices, `p` is the right neighbor of `i` iff `i` is the left
neighbor of `p`. -/
theorem right_left_iff {w i p : Nat} (hw : 0 < w) (hi : i < w) (hp : p < w) :
    p = rightN w i ↔ leftN w p = i := by
  unfold rightN leftN
  constructor
  · rintro rfl
    rcases Nat.lt_or_ge (i + 1) w with hlt | hge
    · rw [Nat.mod_eq_of_lt hlt]
      have h2 : i + 1 + w - 1 = i + w := by omega
      rw [h2, Nat.add_mod_right, Nat.mod_eq_of_lt hi]
    · have hiw : i + 1 = w := by omega
      rw [hiw, Nat.mod_self]
      have h2 : 0 + w - 1 = w - 1 := by omega
      rw [h2, Nat.mod_eq_of_lt (by omega)]
      omega
  · intro hEq
    rcases Nat.eq_zero_or_pos p with rfl | hppos
    · have h2 : 0 + w - 1 = w - 1 := by omega
      rw [h2, Nat.mod_eq_of_lt (by omega)] at hEq
      have h3 : i + 1 = w := by omega
      rw [h3, Nat.mod_self]
    · have h2 : p + w - 1 = (p - 1) + w := by omega
      rw [h2, Nat.add_mod_right, Nat.mod_eq_of_lt (by omega)] at hEq
      have h3 : i + 1 = p := by omega
      rw [h3, Nat.mod_eq_of_lt hp]

/-- On in-range indices, `p` is the left neighbor of `i` iff `i` is the right
neighbor of `p`. -/
theorem left_right_iff {w i p : Nat} (hw : 0 < w) (hi : i < w) (hp : p < w) :
    p = leftN w i ↔ rightN w p = i := by
  have H := right_left_iff (w := w) (i := p) (p := i) hw hp hi
  constructor
  · intro hEq
    exact ((H.mpr hEq.symm).symm)
  · intro hEq
    exact ((H.mp hEq.symm).symm)

theorem updSpin_apply (f : Nat → Nat → Int) (a b : Nat) (v : Int) (p q : Nat) :
    updSpin f a b v p q = f p q + (if p = a ∧ q = b then v - f a b else 0) := by
  unfold updSpin
  by_cases hc : p = a ∧ q = b
  · obtain ⟨h1, h2⟩ := hc
    subst h1; subst h2
    simp
  · simp [hc]

theorem addAt_apply (f : Nat → Nat → Int) (a b : Nat) (d : Int) (p q : Nat) :
    addAt f a b d p q = f p q + (if p = a ∧ q = b then d else 0) := by
  unfold addAt
  by_cases hc : p = a ∧ q = b
  · simp [hc]
  · simp [hc]

/-- Core preservation lemma: an accepted flip of variant 3 keeps the
exchange-field cache equal to the true neighbor sums. -/
theorem invariant_flipSpinV3 (w h : Nat) (hw : 0 < w) (hh : 0 < h) (s : IsingState)
    (hs : invariant w h s) (i j : Nat) (hi : i < w) (hj : j < h) :
    invariant w h (flipSpinV3 w h s i j) := by
  intro p hp q hq
  rw [Finset.mem_range] at hp hq
  have hef := hs p (Finset.mem_range.mpr hp) q (Finset.mem_range.mpr hq)
  rw [neighborSum] at hef
  have e1 : (p = rightN w i ∧ q = j) ↔ (leftN w p = i ∧ q = j) :=
    and_congr_left' (right_left_iff hw hi hp)
  have e2 : (p = leftN w i ∧ q = j) ↔ (rightN w p = i ∧ q = j) :=
    and_congr_left' (left_right_iff hw hi hp)
  have e3 : (p = i ∧ q = rightN h j) ↔ (p = i ∧ leftN h q = j) :=
    and_congr_right' (right_left_iff hh hj hq)
  have e4 : (p = i ∧ q = leftN h j) ↔ (p = i ∧ rightN h q = j) :=
    and_congr_right' (left_right_iff hh hj hq)
  show (flipSpinV3 w h s i j).exchangeField p q
      = neighborSum w h (flipSpinV3 w h s i j).spin p q
  simp only [flipSpinV3, neighborSum, addAt_apply, updSpin_apply, hef]
  simp only [e1, e2, e3, e4]
  by_cases c1 : rightN w p = i ∧ q = j <;>
    by_cases c2 : leftN w p = i ∧ q = j <;>
      by_cases c3 : p = i ∧ leftN h q = j <;>
        by_cases c4 : p = i ∧ rightN h q = j <;>
          simp [c1, c2, c3, c4] <;> ring_nf

/-- A trial of variant 3 preserves the cache invariant whether the flip is
accepted or rejected. -/
theorem invariant_trialV3 (w h : Nat) (hw : 0 < w) (hh : 0 < h) (s : IsingState)
    (hs : invariant w h s) (i j : Nat) (hi : i < w) (hj : j < h) (accepted : Bool) :
    invariant w h (trialV3 w h s i j accepted) := by
  cases accepted
  · simpa [trialV3] using hs
  · simpa [trialV3] using invariant_flipSpinV3 w h hw hh s hs i j hi hj

/-- Any sequence of in-range trials preserves the cache invariant. -/
theorem invariant_runTrialsV3 (w h : Nat) (hw : 0 < w) (hh : 0 < h) (s : IsingState)
    (hs : invariant w h s) (ts : List (Nat × Nat × Bool))
    (hts : ∀ t ∈ ts, t.1 < w ∧ t.2.1 < h) :
    invariant w h (runTrialsV3 w h s ts) := by
  induction ts generalizing s with
  | nil => simpa [runTrialsV3] using hs
  | cons t ts ih =>
      have ht := hts t (List.mem_cons_self t ts)
      have htail : ∀ t' ∈ ts, t'.1 < w ∧ t'.2.1 < h :=
        fun t' ht' => hts t' (List.mem_cons_of_mem t ht')
      have hstep := invariant_trialV3 w h hw hh s hs t.1 t.2.1 ht.1 ht.2 t.2.2
      simpa [runTrialsV3, List.foldl] using ih _ hstep htail

/-- C1: for every reachable simulation state — right after `initialize` and
after any sequence of Metropolis trials of the engine at lines 861-890 —
`exchangeField[i][j]` equals the exact sum of the four periodic-boundary
neighbor spins for every in-range cell; the invariant is established by
initialization and preserved by every trial, accepted or rejected. -/
theorem exchangeField_cache_invariant (w h : Nat) (hw : 0 < w) (hh : 0 < h)
    (randomize : Bool) (rand : Nat → Nat → ℚ) (ts : List (Nat × Nat × Bool))
    (hts : ∀ t ∈ ts, t.1 < w ∧ t.2.1 < h) :
    invariant w h (initState w h randomize rand) ∧
    (∀ s : IsingState, invariant w h s → ∀ i j : Nat, i < w → j < h →
      ∀ accepted : Bool, invariant w h (trialV3 w h s i j accepted)) ∧
    invariant w h (runTrialsV3 w h (initState w h randomize rand) ts) := by
  have hinit : invariant w h (initState w h randomize rand) := by
    intro i _ j _
    rfl
  refine ⟨hinit, ?_, ?_⟩
  · intro s hs i j hi hj accepted
    exact invariant_trialV3 w h hw hh s hs i j hi hj accepted
  · exact invariant_runTrialsV3 w h hw hh _ hinit ts hts

/-- Concrete instantiation of the cache-invariant theorem on a 2×2 lattice
with one accepted and one rejected trial. -/
theorem exchangeField_cache_invariant_witness :
    0 < 2 ∧
    invariant 2 2 (runTrialsV3 2 2 (initState 2 2 false (fun _ _ => 0))
      [(0, 1, true), (1, 0, false)]) :=
  ⟨by decide,
   (exchangeField_cache_invariant 2 2 (by decide) (by decide) false (fun _ _ => 0)
      [(0, 1, true), (1, 0, false)] (by decide)).2.2⟩

/-! ## Equivalence of the two Metropolis cache-update orders (C10) -/

/-- C10: the two Metropolis variants perform the same state transition.
Variant 2 (lines 483-489) subtracts `2*spin[i][j]` from the four neighbors'
exchange-field entries and then negates the spin; variant 3 (lines 873-888)
negates the spin first and adds `2*spin[i][j]` (the new value) to the four
neighbors.  Both orders produce identical spin grids and exchange fields, so
under identical configurations and identical random-draw sequences (which
feed the identical `deltaE` and acceptance formulas of lines 481-483 and
870-873) the two `metropolis` implementations define the same transition on
every trial and on every batch of trials. -/
theorem metropolis_variants_equivalent :
    (∀ (w h : Nat) (s : IsingState) (i j : Nat),
      flipSpinV2 w h s i j = flipSpinV3 w h s i j) ∧
    (∀ (w h : Nat) (s : IsingState) (i j : Nat) (accepted : Bool),
      trialV2 w h s i j accepted = trialV3 w h s i j accepted) ∧
    (∀ (w h : Nat) (s : IsingState) (ts : List (Nat × Nat × Bool)),
      runTrialsV2 w h s ts = runTrialsV3 w h s ts) := by
  have hflip : ∀ (w h : Nat) (s : IsingState) (i j : Nat),
      flipSpinV2 w h s i j = flipSpinV3 w h s i j := by
    intro w h s i j
    simp [flipSpinV2, flipSpinV3, mul_neg]
  have htrial : ∀ (w h : Nat) (s : IsingState) (i j : Nat) (accepted : Bool),
      trialV2 w h s i j accepted = trialV3 w h s i j accepted := by
    intro w h s i j accepted
    cases accepted <;> simp [trialV2, trialV3, hflip]
  refine ⟨hflip, htrial, ?_⟩
  intro w h s ts
  induction ts generalizing s with
  | nil => rfl
  | cons t ts ih =>
      simp only [runTrialsV2, runTrialsV3, List.foldl] at ih ⊢
      rw [htrial, ih]

/-! ## Metropolis cell choice and acceptance rule (C2)

The acceptance test of lines 870-873 compares real numbers produced by
`Math.exp`, so this part of the model lives in `ℝ`; the uniform draws that
choose the cell are exact rationals in `[0, 1)`. -/

/-- Energy change of a single spin flip (line 870):
`deltaE = -2 * spin[i][j] * (exchangeField[i][j] + magneticField)`. -/
def deltaE (s e : Int) (magneticField : ℝ) : ℝ :=
  -2 * (s : ℝ) * ((e : ℝ) + magneticField)

/-- The acceptance test of line 873:
`deltaE >= 0 || Math.random() < Math.exp(deltaE / temperature)`. -/
def acceptFlip (dE T r : ℝ) : Prop :=
  0 ≤ dE ∨ r < Real.exp (dE / T)

/-- The Metropolis acceptance probability `min(1, exp(deltaE/T))`. -/
noncomputable def acceptanceProbability (dE T : ℝ) : ℝ :=
  min 1 (Real.exp (dE / T))

/-- Cell choice of lines 866-867: `Math.floor(width * Math.random())`. -/
def pickIndex (w : Nat) (r : ℚ) : Nat :=
  (⌊(w : ℚ) * r⌋).toNat

/-- For a draw `r ∈ [0, 1)`, the chosen index is in range, and it equals `k`
exactly when `r` falls in the length-`1/w` bin `[k/w, (k+1)/w)` — the bins
that make the cell choice uniform. -/
theorem pickIndex_uniform (w : Nat) (hw : 0 < w) (r : ℚ) (h0 : 0 ≤ r) (h1 : r < 1) :
    pickIndex w r < w ∧
    (∀ k : Nat, pickIndex w r = k ↔ ((k : ℚ) / w ≤ r ∧ r < ((k : ℚ) + 1) / w)) := by
  have hwq : (0 : ℚ) < (w : ℚ) := by exact_mod_cast hw
  have hfl0 : 0 ≤ ⌊(w : ℚ) * r⌋ := Int.floor_nonneg.mpr (mul_nonneg hwq.le h0)
  have hflw : ⌊(w : ℚ) * r⌋ < (w : ℤ) := by
    apply Int.floor_lt.mpr
    push_cast
    exact mul_lt_of_lt_one_right hwq h1
  constructor
  · unfold pickIndex
    omega
  · intro k
    have hiff : pickIndex w r = k ↔ ⌊(w : ℚ) * r⌋ = (k : ℤ) := by
      unfold pickIndex
      omega
    rw [hiff, Int.floor_eq_iff]
    rw [div_le_iff₀ hwq, lt_div_iff₀ hwq]
    constructor
    · rintro ⟨ha, hb⟩
      constructor
      · calc (k : ℚ) ≤ (w : ℚ) * r := by exact_mod_cast ha
          _ = r * w := mul_comm _ _
      · calc r * w = (w : ℚ) * r := mul_comm _ _
          _ < (k : ℚ) + 1 := by exact_mod_cast hb
    · rintro ⟨ha, hb⟩
      constructor
      · calc ((k : ℤ) : ℚ) = (k : ℚ) := by push_cast; ring
          _ ≤ r * w := ha
          _ = (w : ℚ) * r := mul_comm _ _
      · calc (w : ℚ) * r = r * w := mul_comm _ _
          _ < (k : ℚ) + 1 := hb
          _ = ((k : ℤ) : ℚ) + 1 := by push_cast; ring

/-- C2: each trial picks its cell through uniform length-`1/w` (resp. `1/h`)
bins of the unit interval, computes
`deltaE = -2 * spin[i][j] * (exchangeField[i][j] + field)`, accepts
unconditionally when `deltaE ≥ 0`, otherwise accepts exactly when the draw
satisfies `r < exp(deltaE/T)`; for `T > 0` and `r ∈ [0,1)` the whole test is
equivalent to `r < min(1, exp(deltaE/T))`, an acceptance probability that
always lies in `[0, 1]`. -/
theorem metropolis_acceptance_rule (w h : Nat) (hw : 0 < w) (hh : 0 < h)
    (r1 r2 : ℚ) (hr1 : 0 ≤ r1 ∧ r1 < 1) (hr2 : 0 ≤ r2 ∧ r2 < 1)
    (sij eij : Int) (magneticField T r : ℝ) (hT : 0 < T) (hr : 0 ≤ r ∧ r < 1) :
    pickIndex w r1 < w ∧
    (∀ k : Nat, pickIndex w r1 = k ↔ ((k : ℚ) / w ≤ r1 ∧ r1 < ((k : ℚ) + 1) / w)) ∧
    pickIndex h r2 < h ∧
    (∀ k : Nat, pickIndex h r2 = k ↔ ((k : ℚ) / h ≤ r2 ∧ r2 < ((k : ℚ) + 1) / h)) ∧
    deltaE sij eij magneticField = -2 * (sij : ℝ) * ((eij : ℝ) + magneticField) ∧
    (0 ≤ deltaE sij eij magneticField → acceptFlip (deltaE sij eij magneticField) T r) ∧
    (deltaE sij eij magneticField < 0 →
      (acceptFlip (deltaE sij eij magneticField) T r ↔
        r < Real.exp (deltaE sij eij magneticField / T))) ∧
    (acceptFlip (deltaE sij eij magneticField) T r ↔
      r < acceptanceProbability (deltaE sij eij magneticField) T) ∧
    0 ≤ acceptanceProbability (deltaE sij eij magneticField) T ∧
    acceptanceProbability (deltaE sij eij magneticField) T ≤ 1 := by
  obtain ⟨hp1, hb1⟩ := pickIndex_uniform w hw r1 hr1.1 hr1.2
  obtain ⟨hp2, hb2⟩ := pickIndex_uniform h hh r2 hr2.1 hr2.2
  set dE := deltaE sij eij magneticField with hdE
  have hmin : acceptFlip dE T r ↔ r < acceptanceProbability dE T := by
    unfold acceptFlip acceptanceProbability
    by_cases hpos : 0 ≤ dE
    · have hexp : 1 ≤ Real.exp (dE / T) :=
        Real.one_le_exp (div_nonneg hpos hT.le)
      rw [min_eq_left hexp]
      simp only [hpos, true_or, true_iff]
      exact hr.2
    · have hneg : dE < 0 := lt_of_not_le hpos
      have hexp : Real.exp (dE / T) < 1 :=
        Real.exp_lt_one_iff.mpr (div_neg_of_neg_of_pos hneg hT)
      rw [min_eq_right hexp.le]
      simp [hpos]
  refine ⟨hp1, hb1, hp2, hb2, rfl, ?_, ?_, hmin, ?_, ?_⟩
  · intro hpos
    exact Or.inl hpos
  · intro hneg
    unfold acceptFlip
    simp [not_le.mpr hneg]
  · unfold acceptanceProbability
    exact le_min (by norm_num) (Real.exp_pos _).le
  · unfold acceptanceProbability
    exact min_le_left _ _

/-- Concrete instantiation of the acceptance-rule theorem: a 2×2 grid,
draws `1/2`, spin `+1`, exchange field `4`, zero field, temperature `1`. -/
theorem metropolis_acceptance_rule_witness :
    (0 : ℝ) < 1 ∧ pickIndex 2 (1/2) < 2 :=
  ⟨by norm_num,
   (metropolis_acceptance_rule 2 2 (by decide) (by decide) (1/2) (1/2)
      ⟨by norm_num, by norm_num⟩ ⟨by norm_num, by norm_num⟩ 1 4 0 1 (1/2)
      (by norm_num) ⟨by norm_num, by norm_num⟩).1⟩

/-! ## Observables (the `update` method, lines 893-929 and 497-544) -/

/-- The per-cell weight of the magnetization sum (line 898):
`weight = 1. / width / height`. -/
def weight (w h : Nat) : ℚ := 1 / (w : ℚ) / (h : ℚ)

/-- Instantaneous magnetization (lines 899-905):
the sum of `spin[i][j] * weight` over the grid. -/
def magObs (w h : Nat) (spin : Nat → Nat → Int) : ℚ :=
  ∑ i ∈ Finset.range w, ∑ j ∈ Finset.range h, (spin i j : ℚ) * weight w h

/-- Instantaneous local order parameter (lines 911-918): after `weight /= 4`,
the sum of `exchangeField[i][j] * spin[i][j] * weight` over the grid. -/
def orderObs (w h : Nat) (spin ef : Nat → Nat → Int) : ℚ :=
  ∑ i ∈ Finset.range w, ∑ j ∈ Finset.range h,
    (ef i j : ℚ) * (spin i j : ℚ) * (weight w h / 4)

theorem weight_nonneg (w h : Nat) : 0 ≤ weight w h := by
  unfold weight
  positivity

theorem sum_weight_eq_one (w h : Nat) (hw : 0 < w) (hh : 0 < h) :
    (∑ _i ∈ Finset.range w, ∑ _j ∈ Finset.range h, weight w h) = 1 := by
  have hw0 : (w : ℚ) ≠ 0 := by exact_mod_cast hw.ne'
  have hh0 : (h : ℚ) ≠ 0 := by exact_mod_cast hh.ne'
  simp only [Finset.sum_const, Finset.card_range, nsmul_eq_mul, weight]
  field_simp

/-- A double sum whose terms are all bounded in absolute value by the cell
weight is itself bounded by one. -/
theorem abs_grid_sum_le_one (w h : Nat) (hw : 0 < w) (hh : 0 < h)
    (f : Nat → Nat → ℚ)
    (hb : ∀ i ∈ Finset.range w, ∀ j ∈ Finset.range h, |f i j| ≤ weight w h) :
    |∑ i ∈ Finset.range w, ∑ j ∈ Finset.range h, f i j| ≤ 1 := by
  calc |∑ i ∈ Finset.range w, ∑ j ∈ Finset.range h, f i j|
      ≤ ∑ i ∈ Finset.range w, |∑ j ∈ Finset.range h, f i j| :=
        Finset.abs_sum_le_sum_abs _ _
    _ ≤ ∑ i ∈ Finset.range w, ∑ j ∈ Finset.range h, |f i j| :=
        Finset.sum_le_sum fun i _ => Finset.abs_sum_le_sum_abs _ _
    _ ≤ ∑ _i ∈ Finset.range w, ∑ _j ∈ Finset.range h, weight w h :=
        Finset.sum_le_sum fun i hi => Finset.sum_le_sum fun j hj => hb i hi j hj
    _ = 1 := sum_weight_eq_one w h hw hh

/-- C9: on a lattice of ±1 spins whose exchange field satisfies the cache
invariant, the per-step observables of `update` are
`M = (1/(W*H)) * Σ spin[i][j]` and
`η = (1/(4*W*H)) * Σ exchangeField[i][j]*spin[i][j]`, and both lie in
`[-1, 1]`. -/
theorem observables_formula_and_bounds (w h : Nat) (hw : 0 < w) (hh : 0 < h)
    (s : IsingState)
    (hspin : ∀ i ∈ Finset.range w, ∀ j ∈ Finset.range h,
      s.spin i j = 1 ∨ s.spin i j = -1)
    (hinv : invariant w h s) :
    magObs w h s.spin
      = (1 / ((w : ℚ) * h)) *
          ∑ i ∈ Finset.range w, ∑ j ∈ Finset.range h, (s.spin i j : ℚ) ∧
    -1 ≤ magObs w h s.spin ∧ magObs w h s.spin ≤ 1 ∧
    orderObs w h s.spin s.exchangeField
      = (1 / (4 * (w : ℚ) * h)) *
          ∑ i ∈ Finset.range w, ∑ j ∈ Finset.range h,
            (s.exchangeField i j : ℚ) * (s.spin i j : ℚ) ∧
    -1 ≤ orderObs w h s.spin s.exchangeField ∧
    orderObs w h s.spin s.exchangeField ≤ 1 := by
  have hw0 : (w : ℚ) ≠ 0 := by exact_mod_cast hw.ne'
  have hh0 : (h : ℚ) ≠ 0 := by exact_mod_cast hh.ne'
  have habs1 : ∀ i ∈ Finset.range w, ∀ j ∈ Finset.range h,
      |(s.spin i j : ℚ)| = 1 := by
    intro i hi j hj
    rcases hspin i hi j hj with hs1 | hs1 <;> rw [hs1] <;> norm_num
  have hmagEq : magObs w h s.spin
      = (1 / ((w : ℚ) * h)) *
          ∑ i ∈ Finset.range w, ∑ j ∈ Finset.range h, (s.spin i j : ℚ) := by
    unfold magObs weight
    rw [Finset.mul_sum]
    refine Finset.sum_congr rfl fun i _ => ?_
    rw [Finset.mul_sum]
    refine Finset.sum_congr rfl fun j _ => ?_
    field_simp
  have hmagBound : |magObs w h s.spin| ≤ 1 := by
    unfold magObs
    refine abs_grid_sum_le_one w h hw hh _ fun i hi j hj => ?_
    rw [abs_mul, habs1 i hi j hj, one_mul,
      abs_of_nonneg (weight_nonneg w h)]
  have hefBound : ∀ i ∈ Finset.range w, ∀ j ∈ Finset.range h,
      |(s.exchangeField i j : ℚ)| ≤ 4 := by
    intro i hi j hj
    rw [hinv i hi j hj]
    rw [Finset.mem_range] at hi hj
    have m1 : rightN w i ∈ Finset.range w :=
      Finset.mem_range.mpr (Nat.mod_lt _ hw)
    have m2 : leftN w i ∈ Finset.range w :=
      Finset.mem_range.mpr (Nat.mod_lt _ hw)
    have m3 : rightN h j ∈ Finset.range h :=
      Finset.mem_range.mpr (Nat.mod_lt _ hh)
    have m4 : leftN h j ∈ Finset.range h :=
      Finset.mem_range.mpr (Nat.mod_lt _ hh)
    have hj' : j ∈ Finset.range h := Finset.mem_range.mpr hj
    have hi' : i ∈ Finset.range w := Finset.mem_range.mpr hi
    unfold neighborSum
    rcases hspin (rightN w i) m1 j hj' with h1 | h1 <;>
      rcases hspin (leftN w i) m2 j hj' with h2 | h2 <;>
        rcases hspin i hi' (rightN h j) m3 with h3 | h3 <;>
          rcases hspin i hi' (leftN h j) m4 with h4 | h4 <;>
            rw [h1, h2, h3, h4] <;> norm_num
  have hordEq : orderObs w h s.spin s.exchangeField
      = (1 / (4 * (w : ℚ) * h)) *
          ∑ i ∈ Finset.range w, ∑ j ∈ Finset.range h,
            (s.exchangeField i j : ℚ) * (s.spin i j : ℚ) := by
    have hquarter : weight w h / 4 = 1 / (4 * (w : ℚ) * h) := by
      unfold weight
      rw [div_div, div_div]
      congr 1
      ring
    unfold orderObs
    rw [hquarter, Finset.mul_sum]
    refine Finset.sum_congr rfl fun i _ => ?_
    rw [Finset.mul_sum]
    refine Finset.sum_congr rfl fun j _ => ?_
    ring
  have hordBound : |orderObs w h s.spin s.exchangeField| ≤ 1 := by
    unfold orderObs
    refine abs_grid_sum_le_one w h hw hh _ fun i hi j hj => ?_
    have hq4 : (0 : ℚ) ≤ weight w h / 4 :=
      div_nonneg (weight_nonneg w h) (by norm_num)
    rw [abs_mul, abs_mul, habs1 i hi j hj, mul_one, abs_of_nonneg hq4]
    calc |(s.exchangeField i j : ℚ)| * (weight w h / 4)
        ≤ 4 * (weight w h / 4) :=
          mul_le_mul_of_nonneg_right (hefBound i hi j hj) hq4
      _ = weight w h := by ring
  obtain ⟨hm1, hm2⟩ := abs_le.mp hmagBound
  obtain ⟨ho1, ho2⟩ := abs_le.mp hordBound
  exact ⟨hmagEq, hm1, hm2, hordEq, ho1, ho2⟩

/-- Concrete instantiation of the observable theorem on the uniform 2×2
lattice produced by non-randomized initialization. -/
theorem observables_formula_and_bounds_witness :
    0 < 2 ∧ -1 ≤ magObs 2 2 (initState 2 2 false (fun _ _ => 0)).spin :=
  ⟨by decide,
   (observables_formula_and_bounds 2 2 (by decide) (by decide)
      (initState 2 2 false (fun _ _ => 0)) (by decide) (by decide)).2.1⟩

/-! ## Block averaging (C3)

Variant 3 of `update` (lines 893-929) accumulates the order parameter into
the misspelled property `averageOrderParamter` (line 920) while the data
table row (line 936) and the block reset (line 927) use the correctly
spelled `averageOrderParameter`.  The state below carries both properties,
exactly as the JavaScript object does after the first assignment. -/

structure UpdateState where
  averageMagnetization : ℚ
  averageOrderParameter : ℚ
  averageOrderParamter : ℚ
deriving DecidableEq

/-- One Recorded Sample: the row appended to the data table by
`updateDataTable` (lines 931-944). -/
structure Sample where
  temperature : ℚ
  magneticField : ℚ
  magnetization : ℚ
  orderParameter : ℚ
deriving DecidableEq

/-- The `update` method of variant 3 (lines 893-929): accumulate
`magnetization / averagingFrames` into `averageMagnetization`, accumulate
`orderParameter / averagingFrames` into the misspelled
`averageOrderParamter`, and when `frameCounter % averagingFrames == 0` emit
one sample from `averageMagnetization` and `averageOrderParameter` and reset
those two fields to zero. -/
def update_v3 (w h : Nat) (spin ef : Nat → Nat → Int)
    (temperature magneticField : ℚ) (averagingFrames frameCounter : Nat)
    (u : UpdateState) : UpdateState × Option Sample :=
  let magnetization := magObs w h spin
  let u1 := { u with averageMagnetization :=
    u.averageMagnetization + magnetization / (averagingFrames : ℚ) }
  let orderParameter := orderObs w h spin ef
  let u2 := { u1 with averageOrderParamter :=
    u1.averageOrderParamter + orderParameter / (averagingFrames : ℚ) }
  if frameCounter % averagingFrames = 0 then
    ({ u2 with averageMagnetization := 0, averageOrderParameter := 0 },
     some { temperature := temperature, magneticField := magneticField,
            magnetization := u2.averageMagnetization,
            orderParameter := u2.averageOrderParameter })
  else (u2, none)

/-- C3 fails on variant 3 of `update`: on the uniform 2×2 lattice with block
size 1 the per-step order parameter is `1`, so the block sum after one step
is `1`; but the emitted sample carries order parameter `0`, because the
accumulation at line 920 writes the misspelled property
`averageOrderParamter` which the emission never reads.  The magnetization
half of the claim holds (the emitted magnetization is the block sum `1`). -/
theorem block_average_emission_bug :
    update_v3 2 2 (fun _ _ => 1) (fun i j => neighborSum 2 2 (fun _ _ => 1) i j)
        1 0 1 1 ⟨0, 0, 0⟩
      = (⟨0, 0, 1⟩, some ⟨1, 0, 1, 0⟩) ∧
    orderObs 2 2 (fun _ _ => 1) (fun i j => neighborSum 2 2 (fun _ _ => 1) i j)
        / ((1 : Nat) : ℚ) = 1 ∧
    (1 : ℚ) ≠ 0 := by
  refine ⟨?_, ?_, by norm_num⟩ <;>
    norm_num [update_v3, magObs, orderObs, weight, neighborSum, rightN, leftN,
      Finset.sum_range_succ]

/-! ## Parameter scheduler (lines 1016-1064) and the per-frame driver

The scheduler state collects the `Ising` fields read and written by
`iterate`, `increment` and `exitCondition`; `terminated` models the `noLoop`
call of `terminate` (after which the host draw loop stops invoking
`simulationStep`) and `samples` counts the data-table rows appended by
`update`. -/

structure SchedState where
  temperature : ℚ
  magneticField : ℚ
  loopIncrement : ℚ
  loopTargetValue : ℚ
  loopStartValue : ℚ
  loopBackward : Bool
  loopMode : Option String
  frameCounter : Nat
  averagingFrames : Nat
  terminated : Bool
  samples : Nat

/-- The tolerance `1E-6` used by variant 3 (lines 1032, 1040, 1054-1060). -/
def epsilon : ℚ := 1 / 1000000

/-- The turnaround test shared by the `TLOOP` and `HLOOP` cases of
`increment` (lines 1031-1035 and 1039-1043): if still forward and the active
parameter is within `1E-6` of the target, set `loopBackward` and negate
`loopIncrement`. -/
def turnaround (s : SchedState) (active : ℚ) : SchedState :=
  if s.loopBackward = false ∧ |active - s.loopTargetValue| < epsilon then
    { s with loopBackward := true, loopIncrement := -s.loopIncrement }
  else s

/-- The `increment` method (lines 1029-1048).  The `switch` falls through
from `TLOOP` into `TSWEEP` and from `HLOOP` into `HSWEEP`, so a loop case
performs the turnaround test and then still adds the (possibly just negated)
increment in the same call; unmatched modes (including `null`) change
nothing. -/
def schedIncrement (s : SchedState) : SchedState :=
  match s.loopMode with
  | some "TLOOP" =>
      let s1 := turnaround s s.temperature
      { s1 with temperature := s1.temperature + s1.loopIncrement }
  | some "TSWEEP" => { s with temperature := s.temperature + s.loopIncrement }
  | some "HLOOP" =>
      let s1 := turnaround s s.magneticField
      { s1 with magneticField := s1.magneticField + s1.loopIncrement }
  | some "HSWEEP" => { s with magneticField := s.magneticField + s.loopIncrement }
  | _ => s

/-- The `exitCondition` method (lines 1051-1064); the default case (for
`null` or unrecognized modes) is `frameCounter >= loopTargetValue`. -/
def exitCondition (s : SchedState) : Bool :=
  match s.loopMode with
  | some "TSWEEP" => decide (|s.temperature - s.loopTargetValue| < epsilon)
  | some "HSWEEP" => decide (|s.magneticField - s.loopTargetValue| < epsilon)
  | some "TLOOP" =>
      s.loopBackward && decide (|s.temperature - s.loopStartValue| < epsilon)
  | some "HLOOP" =>
      s.loopBackward && decide (|s.magneticField - s.loopStartValue| < epsilon)
  | _ => decide (s.loopTargetValue ≤ (s.frameCounter : ℚ))

/-- Scheduler effect of one `simulationStep` call: `update` appends one
data-table row when `frameCounter % averagingFrames == 0` (lines 924-925),
then `iterate` (lines 1016-1026) either terminates or increments at a block
boundary and always advances `frameCounter`; a terminated simulation is
frozen (`noLoop` stops the draw loop). -/
def frameStep (s : SchedState) : SchedState :=
  if s.terminated then s
  else
    let s1 := if s.frameCounter % s.averagingFrames = 0 then
        { s with samples := s.samples + 1 }
      else s
    if s1.frameCounter % s1.averagingFrames = 0 then
      if exitCondition s1 then
        { s1 with terminated := true, frameCounter := s1.frameCounter + 1 }
      else
        let s2 := schedIncrement s1
        { s2 with frameCounter := s2.frameCounter + 1 }
    else { s1 with frameCounter := s1.frameCounter + 1 }

/-- Iterated `increment` calls. -/
def runIncrements : Nat → SchedState → SchedState
  | 0, s => s
  | n + 1, s => runIncrements n (schedIncrement s)

/-- Iterated `simulationStep` calls of the host draw loop. -/
def runFrames : Nat → SchedState → SchedState
  | 0, s => s
  | n + 1, s => runFrames n (frameStep s)

theorem schedIncrement_loopMode (s : SchedState) :
    (schedIncrement s).loopMode = s.loopMode := by
  unfold schedIncrement turnaround
  split <;> dsimp only <;> (try split_ifs) <;> rfl

theorem schedIncrement_magneticField_fixed (s : SchedState)
    (h1 : s.loopMode ≠ some "HSWEEP") (h2 : s.loopMode ≠ some "HLOOP") :
    (schedIncrement s).magneticField = s.magneticField := by
  unfold schedIncrement turnaround
  split <;> dsimp only <;> (try split_ifs) <;> first | rfl | simp_all

theorem schedIncrement_temperature_fixed (s : SchedState)
    (h1 : s.loopMode ≠ some "TSWEEP") (h2 : s.loopMode ≠ some "TLOOP") :
    (schedIncrement s).temperature = s.temperature := by
  unfold schedIncrement turnaround
  split <;> dsimp only <;> (try split_ifs) <;> first | rfl | simp_all

theorem frameStep_loopMode (s : SchedState) :
    (frameStep s).loopMode = s.loopMode := by
  unfold frameStep
  dsimp only
  split_ifs <;> simp [schedIncrement_loopMode]

theorem frameStep_magneticField_fixed (s : SchedState)
    (h1 : s.loopMode ≠ some "HSWEEP") (h2 : s.loopMode ≠ some "HLOOP") :
    (frameStep s).magneticField = s.magneticField := by
  unfold frameStep
  dsimp only
  split_ifs <;>
    simp_all [schedIncrement_magneticField_fixed]

theorem frameStep_temperature_fixed (s : SchedState)
    (h1 : s.loopMode ≠ some "TSWEEP") (h2 : s.loopMode ≠ some "TLOOP") :
    (frameStep s).temperature = s.temperature := by
  unfold frameStep
  dsimp only
  split_ifs <;>
    simp_all [schedIncrement_temperature_fixed]

/-- C8: under any number of scheduler steps (`increment` calls alone, or
whole `simulationStep` frames), a temperature schedule never moves the
magnetic field, a field schedule never moves the temperature, and with no
scheduler mode (`loopMode` null) neither parameter ever changes. -/
theorem single_active_parameter (s : SchedState) (n : Nat) :
    ((s.loopMode = some "TSWEEP" ∨ s.loopMode = some "TLOOP") →
      (runIncrements n s).magneticField = s.magneticField ∧
      (runFrames n s).magneticField = s.magneticField) ∧
    ((s.loopMode = some "HSWEEP" ∨ s.loopMode = some "HLOOP") →
      (runIncrements n s).temperature = s.temperature ∧
      (runFrames n s).temperature = s.temperature) ∧
    (s.loopMode = none →
      (runIncrements n s).temperature = s.temperature ∧
      (runIncrements n s).magneticField = s.magneticField ∧
      (runFrames n s).temperature = s.temperature ∧
      (runFrames n s).magneticField = s.magneticField) := by
  induction n generalizing s with
  | zero =>
      exact ⟨fun _ => ⟨rfl, rfl⟩, fun _ => ⟨rfl, rfl⟩, fun _ => ⟨rfl, rfl, rfl, rfl⟩⟩
  | succ n ih =>
      have hIm : (schedIncrement s).loopMode = s.loopMode := schedIncrement_loopMode s
      have hFm : (frameStep s).loopMode = s.loopMode := frameStep_loopMode s
      refine ⟨?_, ?_, ?_⟩
      · intro hm
        have hne1 : s.loopMode ≠ some "HSWEEP" := by rcases hm with h | h <;> simp [h]
        have hne2 : s.loopMode ≠ some "HLOOP" := by rcases hm with h | h <;> simp [h]
        constructor
        · have := (ih (schedIncrement s)).1 (by rw [hIm]; exact hm)
          rw [runIncrements, this.1,
            schedIncrement_magneticField_fixed s hne1 hne2]
        · have := (ih (frameStep s)).1 (by rw [hFm]; exact hm)
          rw [runFrames, this.2,
            frameStep_magneticField_fixed s hne1 hne2]
      · intro hm
        have hne1 : s.loopMode ≠ some "TSWEEP" := by rcases hm with h | h <;> simp [h]
        have hne2 : s.loopMode ≠ some "TLOOP" := by rcases hm with h | h <;> simp [h]
        constructor
        · have := (ih (schedIncrement s)).2.1 (by rw [hIm]; exact hm)
          rw [runIncrements, this.1,
            schedIncrement_temperature_fixed s hne1 hne2]
        · have := (ih (frameStep s)).2.1 (by rw [hFm]; exact hm)
          rw [runFrames, this.2,
            frameStep_temperature_fixed s hne1 hne2]
      · intro hm
        have hT1 : s.loopMode ≠ some "TSWEEP" := by simp [hm]
        have hT2 : s.loopMode ≠ some "TLOOP" := by simp [hm]
        have hH1 : s.loopMode ≠ some "HSWEEP" := by simp [hm]
        have hH2 : s.loopMode ≠ some "HLOOP" := by simp [hm]
        have hi := (ih (schedIncrement s)).2.2 (by rw [hIm]; exact hm)
        have hf := (ih (frameStep s)).2.2 (by rw [hFm]; exact hm)
        refine ⟨?_, ?_, ?_, ?_⟩
        · rw [runIncrements, hi.1, schedIncrement_temperature_fixed s hT1 hT2]
        · rw [runIncrements, hi.2.1,
            schedIncrement_magneticField_fixed s hH1 hH2]
        · rw [runFrames, hf.2.2.1, frameStep_temperature_fixed s hT1 hT2]
        · rw [runFrames, hf.2.2.2, frameStep_magneticField_fixed s hH1 hH2]

/-- Concrete instantiation of the frame-effect theorem: four increments of a
temperature sweep leave the field untouched. -/
theorem single_active_parameter_witness :
    (runIncrements 4 ⟨4, 0, -(1/20), 1, 4, false, some "TSWEEP", 1, 20,
        false, 0⟩).magneticField
      = (⟨4, 0, -(1/20), 1, 4, false, some "TSWEEP", 1, 20,
        false, 0⟩ : SchedState).magneticField :=
  ((single_active_parameter
    ⟨4, 0, -(1/20), 1, 4, false, some "TSWEEP", 1, 20, false, 0⟩ 4).1
    (Or.inl rfl)).1

/-! ## Loop turnaround (C4) -/

/-- C4: in a loop mode, when `increment` runs while still forward with the
active parameter within `1E-6` of the target, it sets the backward flag,
negates the increment, and — through the `switch` fall-through — still
advances the active parameter by the newly negated increment in the same
call; and `exitCondition` in a loop mode holds exactly when the direction is
backward and the active parameter is within `1E-6` of the start value
snapshotted at initialization. -/
theorem loop_turnaround_and_exit (s : SchedState) :
    (s.loopMode = some "TLOOP" → s.loopBackward = false →
      |s.temperature - s.loopTargetValue| < epsilon →
      (schedIncrement s).loopBackward = true ∧
      (schedIncrement s).loopIncrement = -s.loopIncrement ∧
      (schedIncrement s).temperature = s.temperature + -s.loopIncrement) ∧
    (s.loopMode = some "HLOOP" → s.loopBackward = false →
      |s.magneticField - s.loopTargetValue| < epsilon →
      (schedIncrement s).loopBackward = true ∧
      (schedIncrement s).loopIncrement = -s.loopIncrement ∧
      (schedIncrement s).magneticField = s.magneticField + -s.loopIncrement) ∧
    (s.loopMode = some "TLOOP" →
      (exitCondition s = true ↔
        s.loopBackward = true ∧ |s.temperature - s.loopStartValue| < epsilon)) ∧
    (s.loopMode = some "HLOOP" →
      (exitCondition s = true ↔
        s.loopBackward = true ∧ |s.magneticField - s.loopStartValue| < epsilon)) := by
  refine ⟨?_, ?_, ?_, ?_⟩
  · intro hm hback habs
    have hcond : s.loopBackward = false ∧
        |s.temperature - s.loopTargetValue| < epsilon := ⟨hback, habs⟩
    simp only [schedIncrement, hm, turnaround, if_pos hcond]
    exact ⟨trivial, trivial, trivial⟩
  · intro hm hback habs
    have hcond : s.loopBackward = false ∧
        |s.magneticField - s.loopTargetValue| < epsilon := ⟨hback, habs⟩
    simp only [schedIncrement, hm, turnaround, if_pos hcond]
    exact ⟨trivial, trivial, trivial⟩
  · intro hm
    simp [exitCondition, hm]
  · intro hm
    simp [exitCondition, hm]

/-- A TLOOP state at its turnaround point: forward, temperature `3` equal to
the target `3`, start value `2`, increment `1/2`. -/
def turnState : SchedState :=
  ⟨3, 0, 1/2, 3, 2, false, some "TLOOP", 5, 5, false, 1⟩

/-- Concrete instantiation of the turnaround theorem at `turnState`. -/
theorem loop_turnaround_and_exit_witness :
    (schedIncrement turnState).loopBackward = true ∧
    (schedIncrement turnState).loopIncrement = -turnState.loopIncrement ∧
    (schedIncrement turnState).temperature
      = turnState.temperature + -turnState.loopIncrement :=
  (loop_turnaround_and_exit turnState).1 rfl rfl
    (by norm_num [turnState, epsilon])

/-! ## The TSWEEP termination scenario (C5) -/

/-- The scenario state of C5: TSWEEP from temperature `1` toward `1/2` with
increment `-1/10` and block size `5`, as configured at construction
(`frameCounter = 1`, forward, no sample yet). -/
def sweepInit : SchedState :=
  ⟨1, 0, -(1/10), 1/2, 1, false, some "TSWEEP", 1, 5, false, 0⟩

theorem frameStep_of_terminated (s : SchedState) (h : s.terminated = true) :
    frameStep s = s := by
  unfold frameStep
  simp [h]

theorem runFrames_of_terminated (k : Nat) (s : SchedState)
    (h : s.terminated = true) : runFrames k s = s := by
  induction k with
  | zero => rfl
  | succ k ih =>
      show runFrames k (frameStep s) = s
      rw [frameStep_of_terminated s h]
      exact ih

theorem runFrames_add (m k : Nat) (s : SchedState) :
    runFrames (m + k) s = runFrames k (runFrames m s) := by
  induction m generalizing s with
  | zero => rw [Nat.zero_add]; rfl
  | succ m ih =>
      have h1 : m + 1 + k = (m + k) + 1 := by omega
      rw [h1]
      show runFrames (m + k) (frameStep s) = runFrames k (runFrames (m + 1) s)
      rw [ih (frameStep s)]
      rfl

/-- The evaluated scheduler state after 25 frames (5 completed blocks) of
the C5 scenario: 5 samples emitted, temperature already `1/2`, still
running. -/
theorem runFrames_twentyfive_sweepInit :
    runFrames 25 sweepInit
      = ⟨1/2, 0, -(1/10), 1/2, 1, false, some "TSWEEP", 26, 5, false, 5⟩ := by
  have h5 : runFrames 5 sweepInit
      = ⟨9/10, 0, -(1/10), 1/2, 1, false, some "TSWEEP", 6, 5, false, 1⟩ := by
    norm_num [runFrames, frameStep, schedIncrement, exitCondition, turnaround,
      sweepInit, epsilon, abs_of_nonneg]
  have h10 : runFrames 10 sweepInit
      = ⟨4/5, 0, -(1/10), 1/2, 1, false, some "TSWEEP", 11, 5, false, 2⟩ := by
    have e : (10 : Nat) = 5 + 5 := by norm_num
    rw [e, runFrames_add, h5]
    norm_num [runFrames, frameStep, schedIncrement, exitCondition, turnaround,
      epsilon, abs_of_nonneg]
  have h15 : runFrames 15 sweepInit
      = ⟨7/10, 0, -(1/10), 1/2, 1, false, some "TSWEEP", 16, 5, false, 3⟩ := by
    have e : (15 : Nat) = 10 + 5 := by norm_num
    rw [e, runFrames_add, h10]
    norm_num [runFrames, frameStep, schedIncrement, exitCondition, turnaround,
      epsilon, abs_of_nonneg]
  have h20 : runFrames 20 sweepInit
      = ⟨3/5, 0, -(1/10), 1/2, 1, false, some "TSWEEP", 21, 5, false, 4⟩ := by
    have e : (20 : Nat) = 15 + 5 := by norm_num
    rw [e, runFrames_add, h15]
    norm_num [runFrames, frameStep, schedIncrement, exitCondition, turnaround,
      epsilon, abs_of_nonneg]
  have e : (25 : Nat) = 20 + 5 := by norm_num
  rw [e, runFrames_add, h20]
  norm_num [runFrames, frameStep, schedIncrement, exitCondition, turnaround,
    epsilon, abs_of_nonneg]

/-- The evaluated scheduler state after 30 frames of the C5 scenario:
six blocks completed, six samples emitted, terminated at temperature `1/2`. -/
theorem runFrames_thirty_sweepInit :
    runFrames 30 sweepInit
      = ⟨1/2, 0, -(1/10), 1/2, 1, false, some "TSWEEP", 31, 5, true, 6⟩ := by
  have e : (30 : Nat) = 25 + 5 := by norm_num
  rw [e, runFrames_add, runFrames_twentyfive_sweepInit]
  norm_num [runFrames, frameStep, schedIncrement, exitCondition, turnaround,
    epsilon, abs_of_nonneg]

/-- C5 fails on the code: in the TSWEEP scenario (start `1`, target `1/2`,
increment `-1/10`, block size `5`) the scheduler has NOT terminated after 5
completed blocks (25 frames, 5 samples, temperature already `1/2`), and a
6th Recorded Sample is emitted before termination is reported during the
6th block. -/
theorem sweep_termination_counterexample :
    (runFrames 25 sweepInit).samples = 5 ∧
    (runFrames 25 sweepInit).terminated = false ∧
    (runFrames 25 sweepInit).temperature = 1/2 ∧
    (runFrames 30 sweepInit).terminated = true ∧
    (runFrames 30 sweepInit).samples = 6 := by
  rw [runFrames_twentyfive_sweepInit, runFrames_thirty_sweepInit]
  exact ⟨rfl, rfl, rfl, rfl, rfl⟩

/-- C5 amended: the scheduler reports termination at the end of the 6th
completed block (frame 30), at which point the temperature equals `1/2`
(within `ε` of the target); a 6th Recorded Sample is emitted during that
final block and no 7th sample is ever emitted afterwards. -/
theorem sweep_termination_after_six_blocks :
    (runFrames 29 sweepInit).terminated = false ∧
    (runFrames 30 sweepInit).terminated = true ∧
    (runFrames 30 sweepInit).temperature = 1/2 ∧
    (runFrames 30 sweepInit).samples = 6 ∧
    ∀ k : Nat, (runFrames (30 + k) sweepInit).samples = 6 := by
  have hbig := runFrames_thirty_sweepInit
  refine ⟨?_, ?_, ?_, ?_, ?_⟩
  · have e : (29 : Nat) = 25 + 4 := by norm_num
    rw [e, runFrames_add, runFrames_twentyfive_sweepInit]
    norm_num [runFrames, frameStep, schedIncrement, exitCondition, turnaround,
      epsilon, abs_of_nonneg]
  · rw [hbig]
  · rw [hbig]
  · rw [hbig]
  · intro k
    rw [runFrames_add 30 k sweepInit, hbig,
      runFrames_of_terminated k _ rfl]

/-! ## Constructor behavior (C6, C7)

The `Ising` constructor of variant 3 (lines 768-848) performs no validation
of its settings; the only computation that can fail is
`this.loopMode.charAt(0)` at line 804, which throws a `TypeError` when
`loopMode` is `null`.  The model returns `none` for that thrown exception
and otherwise the computed `loopStartValue` together with the initialized
grids. -/

structure InitResult where
  loopStartValue : ℚ
  state : IsingState

/-- The observable effects of the `Ising` constructor (lines 768-848):
compute `loopStartValue = (loopMode.charAt(0) == 'T') ? temperature :
magneticField` — a thrown `TypeError` (modelled as `none`) when `loopMode`
is `null` — then build the spin grid and exchange field.  No width, height,
temperature, block-size or mode-string validation is performed. -/
def isingInit (w h : Nat) (randomize : Bool) (rand : Nat → Nat → ℚ)
    (loopMode : Option String) (temperature magneticField : ℚ) :
    Option InitResult :=
  match loopMode with
  | none => none
  | some m =>
      some { loopStartValue := if m.take 1 = "T" then temperature else magneticField,
             state := initState w h randomize rand }

/-- C6 amended: initialization performs no configuration validation — for
every width, height, temperature, field and non-null mode string
(recognized or not), construction succeeds. -/
theorem init_accepts_any_configuration (w h : Nat) (randomize : Bool)
    (rand : Nat → Nat → ℚ) (m : String) (temperature magneticField : ℚ) :
    (isingInit w h randomize rand (some m) temperature magneticField).isSome
      = true := rfl

/-- C6 fails on the code: an invalid configuration — width `0`, temperature
`-1`, unrecognized scheduler mode `"FOO"` — is not rejected; the constructor
completes successfully. -/
theorem init_accepts_invalid_configuration :
    (isingInit 0 5 false (fun _ _ => 0) (some "FOO") (-1) 0).isSome = true :=
  rfl

/-- C7 fails on the code: with `loopMode` set to `null` — which the usage
documentation declares optional and to be set to `null` if unused — the
constructor evaluates `null.charAt(0)` at line 804 and throws a `TypeError`,
so initialization does not succeed. -/
theorem init_crashes_on_null_mode :
    isingInit 10 10 false (fun _ _ => 0) none 2 0 = none := rfl

end Ising
